import Mathlib

/-!
Shallow embedding of the pytest-sessions plugin (src/src/pytest_sessions/__init__.py).

The live session database and the attached reference database are each a
sqlite table `items` with one row per test node id (unique index on
`nodeid`).  A table is embedded as a `List Row`; the SQL statements the
plugin issues are embedded as pure functions over such lists, translated
statement by statement from the source.  Node ids are the strings pytest
uses (`dir/file.py::test`), decomposed into segments exactly the way
`IdTrie.id_to_path` decomposes them.
-/

/-- One row of the `items` table created by `init_db` (schema lines 195-221):
`nodeid` and `outcome` are not null; the four phase blobs, and the location
triple, are nullable. -/
structure Row where
  nodeid : String
  outcome : String
  collect : Option String := none
  setup : Option String := none
  call : Option String := none
  teardown : Option String := none
  filename : Option String := none
  lineno : Option Int := none
  testname : Option String := none
deriving Repr, DecidableEq

/-- The `items` table of one database. -/
abbrev Store := List Row

/-- `SELECT * FROM items WHERE nodeid = ? LIMIT 1` (the unique index makes
at most one row match). -/
def Store.findRow (s : Store) (n : String) : Option Row :=
  s.find? (fun r => r.nodeid = n)

/-- The data of one `pytest.TestReport` that
`SessionPlugin.pytest_runtest_logreport` reads: the phase (`report.when`),
the raw phase outcome (`report.outcome`), whether the report carries the
`wasxfail` attribute, and the serialized report
(`json.dumps(report._to_json())`). `report.skipped` is
`report.outcome == "skipped"`. -/
structure TestReport where
  nodeid : String
  phase : String
  outcome : String
  wasxfail : Bool
  blob : String
deriving Repr, DecidableEq

/-- Outcome normalization of `SessionPlugin.pytest_runtest_logreport`
(lines 326-338): an expected failure maps to `xfailed` when skipped and to
`x<outcome>` otherwise; a plain skip maps to `skipped`; a failure during
`collect`, `setup` or `teardown` maps to `error`. -/
def normalizeOutcome (rep : TestReport) : String :=
  if rep.wasxfail then
    if rep.outcome = "skipped" then "xfailed" else "x" ++ rep.outcome
  else if rep.outcome = "skipped" then "skipped"
  else if (rep.phase = "collect" ∨ rep.phase = "setup" ∨ rep.phase = "teardown")
      ∧ rep.outcome = "failed" then "error"
  else rep.outcome

/-- Read the phase column named by `phase` from a row. -/
def Row.phaseBlob (r : Row) (phase : String) : Option String :=
  if phase = "setup" then r.setup
  else if phase = "call" then r.call
  else if phase = "teardown" then r.teardown
  else none

/-- `UPDATE items SET {when} = ? WHERE nodeid = ?` applied to one row whose
nodeid already matched. -/
def Row.writePhase (r : Row) (phase : String) (blob : String) : Row :=
  if phase = "setup" then { r with setup := some blob }
  else if phase = "call" then { r with call := some blob }
  else if phase = "teardown" then { r with teardown := some blob }
  else r

/-- `SessionPlugin.pytest_runtest_logreport` (lines 322-348): normalize the
outcome, run `UPDATE items SET outcome = ? WHERE nodeid = ? AND outcome in
('pending', 'passed')`, then, when the phase is `setup`, `call` or
`teardown`, run `UPDATE items SET {when} = ? WHERE nodeid = ?` with the
serialized report. -/
def runtestLogreport (store : Store) (rep : TestReport) : Store :=
  let o := normalizeOutcome rep
  let store1 := store.map (fun r =>
    if r.nodeid = rep.nodeid ∧ (r.outcome = "pending" ∨ r.outcome = "passed")
    then { r with outcome := o } else r)
  if rep.phase = "setup" ∨ rep.phase = "call" ∨ rep.phase = "teardown" then
    store1.map (fun r =>
      if r.nodeid = rep.nodeid then r.writePhase rep.phase rep.blob else r)
  else store1

/-- `SessionPlugin.pytest_warning_recorded` (lines 297-312): ignore the
warning unless a node id is present and the context is `runtest`, else run
`UPDATE items SET outcome = 'warnings' WHERE nodeid = ?`. -/
def warningRecorded (store : Store) (whenCtx : String) (nodeid : String) : Store :=
  if nodeid = "" ∨ whenCtx ≠ "runtest" then store
  else store.map (fun r =>
    if r.nodeid = nodeid then { r with outcome := "warnings" } else r)

/-- `SessionPlugin.pytest_collection_modifyitems` (lines 264-274):
`executemany "INSERT INTO items (nodeid, outcome) VALUES (?, 'pending')"`
over the collected node ids.  The statement has no ON CONFLICT clause, so
a nodeid that already has a row violates the unique index
`items_nodeid_idx` and sqlite raises an IntegrityError, embedded as
`Except.error`. -/
def collectionInsertPending : Store → List String → Except String Store
  | store, [] => .ok store
  | store, id :: rest =>
      if (store.findRow id).isSome then
        .error "UNIQUE constraint failed: items.nodeid"
      else
        collectionInsertPending (store ++ [{ nodeid := id, outcome := "pending" }]) rest

/-- A collected `pytest.Item` as seen by the rerun and reorder plugins: its
node id and the modification time of its file (`item.path.stat().st_mtime`,
modelled as an integer timestamp). -/
structure Item where
  nodeid : String
  mtime : Int := 0
deriving Repr, DecidableEq

/-- `INSERT INTO main.items SELECT * FROM reference.items WHERE true ON
CONFLICT DO NOTHING` (lines 390-396): every reference row whose nodeid does
not yet appear is appended, row by row, existing rows untouched. -/
def mergeReference (live : Store) (ref : Store) : Store :=
  ref.foldl (fun acc r =>
    if (acc.findRow r.nodeid).isSome then acc else acc ++ [r]) live

/-- `coalesce(reference.items.outcome, 'new')` for one nodeid: the outcome
the reference session recorded, or the virtual outcome `new` when the
reference has no row for the id. -/
def refOutcome (ref : Store) (n : String) : String :=
  match ref.findRow n with
  | some r => r.outcome
  | none => "new"

/-- The dict `prev` built by `RerunPlugin.pytest_collection_modifyitems`
(lines 400-406): `SELECT main.items.nodeid, coalesce(reference.items.outcome,
'new') FROM main.items LEFT JOIN reference.items ON (main.items.nodeid =
reference.items.nodeid)`, keyed over the merged live store. -/
def prevAssoc (merged : Store) (ref : Store) : List (String × String) :=
  merged.map (fun r => (r.nodeid, refOutcome ref r.nodeid))

/-- Python dict lookup `prev[nodeid]`; `none` is a KeyError. -/
def lookupPrev (d : List (String × String)) (n : String) : Option String :=
  (d.find? (fun p => p.1 = n)).map (fun p => p.2)

/-- `UPDATE main.items SET outcome = ? WHERE nodeid = ?`. -/
def updateOutcome (s : Store) (n : String) (o : String) : Store :=
  s.map (fun r => if r.nodeid = n then { r with outcome := o } else r)

/-- What `RerunPlugin.pytest_collection_modifyitems` leaves behind: the live
store, the contents of the `items` list after the hook (`items[:] = kept`
when the deselection branch runs), and the items passed to the
`pytest_deselected` notification hook. -/
structure RerunResult where
  store : Store
  items : List Item
  deselected : List Item
deriving Repr, DecidableEq

/-- `RerunPlugin.pytest_collection_modifyitems` (lines 385-429).  `rerun`
is `self.rerun` (`none` for Python `None`); `allIfNone` is
`self.all_if_none`.  The reference rows are first merged into the live
store; when a non-empty category set is requested, each item is kept when
`prev[item.nodeid]` is in the set; when `kept or not all_if_none`, the
deselection notification fires, the item list shrinks to `kept`, and the
carried-forward outcome of each deselected item whose previous outcome is
not `new` is written back.  A `prev` lookup of an item with no merged row
is a KeyError, embedded as `none`. -/
def rerunModifyitems (rerun : Option (List String)) (allIfNone : Bool)
    (live : Store) (ref : Store) (items : List Item) : Option RerunResult :=
  let merged := mergeReference live ref
  match rerun with
  | none => some ⟨merged, items, []⟩
  | some cats =>
    if cats = [] then some ⟨merged, items, []⟩
    else
      let prev := prevAssoc merged ref
      if items.all (fun it => (lookupPrev prev it.nodeid).isSome) then
        let getPrev := fun (it : Item) => (lookupPrev prev it.nodeid).getD "new"
        let kept := items.filter (fun it => cats.contains (getPrev it))
        let desel := items.filter (fun it => ¬ cats.contains (getPrev it))
        if kept ≠ [] ∨ allIfNone = false then
          let updates := desel.filterMap (fun it =>
            let o := getPrev it
            if o ≠ "new" then some (o, it.nodeid) else none)
          some ⟨updates.foldl (fun st p => updateOutcome st p.2 p.1) merged,
                kept, desel⟩
        else
          some ⟨merged, items, []⟩
      else none

/-- `RerunPlugin.pytest_sessionfinish` (lines 431-439): `UPDATE main.items
SET outcome = reference.items.outcome FROM reference.items WHERE
main.items.nodeid = reference.items.nodeid AND main.items.outcome =
'pending' AND reference.items.outcome != 'passed'`. -/
def rerunSessionfinish (live : Store) (ref : Store) : Store :=
  live.map (fun r =>
    if r.outcome = "pending" then
      match ref.findRow r.nodeid with
      | some rr => if rr.outcome ≠ "passed" then { r with outcome := rr.outcome } else r
      | none => r
    else r)

/-- Python list slicing `files[:-limit]` for an integer `limit`: a negative
stop index counts from the end (clamped at zero), `[:-0]` is `[:0]`, hence
empty, and a positive stop index takes that many elements. -/
def pySliceUpToNeg (files : List String) (limit : Int) : List String :=
  if limit > 0 then files.take (files.length - limit.toNat)
  else if limit = 0 then []
  else files.take (-limit).toNat

/-- `pathlib.Path.unlink(missing_ok=...)` over a directory state: erase the
file when present; when absent, succeed silently if `missingOk` and fail
(`FileNotFoundError`, embedded as `none`) otherwise. -/
def unlink (missingOk : Bool) (fs : List String) (f : String) : Option (List String) :=
  if f ∈ fs then some (fs.erase f)
  else if missingOk then some fs else none

/-- The deletion loop of `SessionPlugin.pytest_sessionfinish` (lines
260-262): `for dbfile in sessionfiles[:-limit]: dbfile.unlink(missing_ok=True)`. -/
def deleteFiles : List String → List String → Option (List String)
  | fs, [] => some fs
  | fs, f :: doomed =>
      match unlink true fs f with
      | some fs2 => deleteFiles fs2 doomed
      | none => none

/-- Result of a normal session finish: the `PRAGMA user_version` stamped on
the live store, and the session files still on disk afterwards. -/
structure FinishResult where
  userVersion : Nat
  remaining : List String
deriving Repr, DecidableEq

/-- One observable side effect of `SessionPlugin.pytest_sessionfinish`, in
program order. -/
inductive FinishEvent where
  | stamp (version : Nat)
  | unlinkFile (missingOk : Bool) (f : String)
deriving Repr, DecidableEq

/-- `SessionPlugin.pytest_sessionfinish` (lines 247-262) on a normal finish
(not cacheshow, not a worker, not collect-only): stamp `user_version = 5`,
sort the `session-*` files by name, and delete `sessionfiles[:-limit]`
with `missing_ok=True`.  `files` is the directory listing; the store state
after the loop is returned. -/
def sessionFinish (limit : Int) (files : List String) : Option FinishResult :=
  let sorted := files.mergeSort (fun a b => a ≤ b)
  (deleteFiles sorted (pySliceUpToNeg sorted limit)).map (fun fs => ⟨5, fs⟩)

/-- The side effects of a normal `SessionPlugin.pytest_sessionfinish`, in
program order: the terminal version stamp comes first, then one tolerant
unlink per evicted file. -/
def sessionFinishTrace (limit : Int) (files : List String) : List FinishEvent :=
  let sorted := files.mergeSort (fun a b => a ≤ b)
  FinishEvent.stamp 5 ::
    (pySliceUpToNeg sorted limit).map (FinishEvent.unlinkFile true)

/-- Split a character list on each occurrence of the two-character
separator `::`, the way `str.split("::")` does. -/
def splitColons : List Char → List Char → List (List Char)
  | [], acc => [acc.reverse]
  | ':' :: ':' :: rest, acc => acc.reverse :: splitColons rest []
  | c :: rest, acc => splitColons rest (c :: acc)

/-- Split a character list on `/`, the way POSIX `pathlib` cuts a path
into candidate components. -/
def splitSlash : List Char → List Char → List (List Char)
  | [], acc => [acc.reverse]
  | '/' :: rest, acc => acc.reverse :: splitSlash rest []
  | c :: rest, acc => splitSlash rest (c :: acc)

/-- `IdTrie.id_to_path` (lines 657-660): `path, *symbols = nodeid.split("::")`
then `itertools.chain(pathlib.Path(path).parts, symbols)`.  For a relative
POSIX path, `pathlib.Path(...).parts` is the list of `/`-separated
components with empty components and `.` components dropped (so the empty
string and `.` decompose to no segment at all). -/
def idToSegs (s : String) : List String :=
  match splitColons s.data [] with
  | [] => []
  | p :: syms =>
      ((splitSlash p []).filter (fun c => c ≠ [] && c ≠ ['.'])).map String.mk
        ++ syms.map String.mk

/-- The nested-dict prefix tree `Trie = dict[str, Trie]` (line 642), with
insertion order preserved as in a Python dict. -/
inductive Trie where
  | node : List (String × Trie) → Trie

/-- The child dict of a trie node. -/
def Trie.children : Trie → List (String × Trie)
  | node cs => cs

/-- The empty dict `{}`. -/
def Trie.empty : Trie := .node []

/-- Lookup in the child dict, as `dict.get` reads a key. -/
def childLookup : List (String × Trie) → String → Option Trie
  | [], _ => none
  | (k, v) :: rest, s => if k = s then some v else childLookup rest s

/-- Python `d.get(segment)`. -/
def Trie.childAt (t : Trie) (s : String) : Option Trie :=
  childLookup t.children s

/-- Assign child `s` of a dict, keeping dict key order: an existing key is
updated in place, a fresh key is appended. -/
def childUpdate : List (String × Trie) → String → Trie → List (String × Trie)
  | [], s, c => [(s, c)]
  | (k, v) :: rest, s, c =>
      if k = s then (s, c) :: rest else (k, v) :: childUpdate rest s c

/-- The `d = d.setdefault(k, {})` chain of `IdTrie.__init__` (lines
649-652) for one node id: walk the segments, materialising missing
children as empty dicts. -/
def Trie.insertSegs : Trie → List String → Trie
  | t, [] => t
  | t, s :: rest =>
      .node (childUpdate t.children s (((t.childAt s).getD Trie.empty).insertSegs rest))

/-- The loop of `IdTrie.__contains__` (lines 666-671): `d` starts at the
root; each segment steps to `d.get(segment)`; stepping from `None` answers
`False`; the query is contained when the final `d` is not `None`. -/
def Trie.walk : Option Trie → List String → Option Trie
  | none, _ => none
  | some t, [] => some t
  | some t, s :: rest => Trie.walk (t.childAt s) rest

/-- `IdTrie.__contains__` on an already-decomposed query. -/
def Trie.containsSegs (t : Trie) (segs : List String) : Bool :=
  (Trie.walk (some t) segs).isSome

/-- `IdTrie.__init__` (lines 646-652): fold every node id, decomposed by
`id_to_path`, into one shared trie. -/
def IdTrie.build (nodeids : List String) : Trie :=
  nodeids.foldl (fun t nid => t.insertSegs (idToSegs nid)) Trie.empty

/-- `IdTrie.__contains__` (lines 662-671) on a query given as a string: a
full node id, or a filesystem path already expressed relative to
`self.rootpath` (which is how the `pathlib.Path` branch rewrites a path
before decomposing it). -/
def IdTrie.containsId (t : Trie) (item : String) : Bool :=
  t.containsSegs (idToSegs item)

/-- `IdTrie.__bool__` (lines 654-655): `bool(self.d)`, i.e. whether the
root dict is non-empty. -/
def IdTrie.toBool (t : Trie) : Bool :=
  !t.children.isEmpty

/-- A leaf entry of a file-level collect report (`report.result`): its node
id, whether its path is an initial argument (`session.isinitpath`), and
whether it is itself a sub-collector (`isinstance(node, pytest.Collector)`). -/
structure LeafNode where
  nodeid : String
  isInitArg : Bool := false
  isSubCollector : Bool := false
deriving Repr, DecidableEq

/-- A file-level collector and the leaves its collection produces; `path`
is the file path relative to the root. -/
structure FileNode where
  path : String
  leaves : List LeafNode
deriving Repr, DecidableEq

/-- The filter `SkipCollection.pytest_make_collect_report` applies to a
file-level result once a first match is found (lines 611-618): keep a node
when its id is in the trie, or its path is an initial argument, or it is a
sub-collector. -/
def keepLeaf (trie : Trie) (l : LeafNode) : Bool :=
  IdTrie.containsId trie l.nodeid || l.isInitArg || l.isSubCollector

/-- The file-level behaviour of the two collaborating hooks
`SkipCollected.pytest_make_collect_report` (lines 628-639) and
`SkipCollection.pytest_make_collect_report` (lines 588-620), for one file:
once skipping is active (`found`), a file whose path is not in the trie is
short-circuited to an empty synthetic report; a file whose path is in the
trie has its leaves filtered by `keepLeaf`, except that before the first
trie-contained leaf is seen a file with no trie-contained leaf is left
untouched; a file outside the trie is left untouched while skipping is
inactive.  Returns the surviving leaves and the updated `found_failure`
flag. -/
def collectFile (trie : Trie) (found : Bool) (f : FileNode) : List LeafNode × Bool :=
  if found && !(IdTrie.containsId trie f.path) then ([], found)
  else if IdTrie.containsId trie f.path then
    if !found then
      if f.leaves.any (fun l => IdTrie.containsId trie l.nodeid) then
        (f.leaves.filter (keepLeaf trie), true)
      else (f.leaves, found)
    else (f.leaves.filter (keepLeaf trie), found)
  else (f.leaves, found)

/-- The whole file-collection pass under the Collection Skipper: fold
`collectFile` over the files in traversal order, threading the
`found_failure` flag, and concatenate the surviving leaves. -/
def collectFiles (trie : Trie) : Bool → List FileNode → List LeafNode
  | _, [] => []
  | found, f :: rest =>
      let step := collectFile trie found f
      step.1 ++ collectFiles trie step.2 rest

/-- `SELECT nodeid FROM reference.items WHERE outcome in (...)`
(`SkipCollection.__init__`, lines 572-579). -/
def refIdsFor (ref : Store) (cats : List String) : List String :=
  (ref.filter (fun r => cats.contains r.outcome)).map Row.nodeid

/-- The trie `SkipCollection.__init__` builds (line 584) from the reference
node ids whose outcome is in the requested category set. -/
def skipTrie (ref : Store) (cats : List String) : Trie :=
  IdTrie.build (refIdsFor ref cats)

/-- The dict `{o: i for i, o in enumerate(...)}` built in `pytest_configure`
(lines 178-183) from the user-ordered category list: enumeration index per
category, a duplicated category keeping its last index. -/
def rankInsert : List (String × Nat) → String → Nat → List (String × Nat)
  | [], k, v => [(k, v)]
  | (k0, v0) :: rest, k, v =>
      if k0 = k then (k, v) :: rest else (k0, v0) :: rankInsert rest k v

/-- Fold of `rankInsert` over the enumerated category list. -/
def buildRankAux : List (String × Nat) → Nat → List String → List (String × Nat)
  | d, _, [] => d
  | d, i, o :: rest => buildRankAux (rankInsert d o i) (i + 1) rest

/-- The rank dict handed to `ReorderPlugin`. -/
def buildRank (order : List String) : List (String × Nat) :=
  buildRankAux [] 0 order

/-- `self.reorder.get(prev[it.nodeid], 99)` (line 694). -/
def rankGet (d : List (String × Nat)) (k : String) : Nat :=
  ((d.find? (fun p => p.1 = k)).map (fun p => p.2)).getD 99

/-- The sort key of `ReorderPlugin.pytest_collection_modifyitems` (lines
693-696): `(self.reorder.get(prev[it.nodeid], 99), -it.path.stat().st_mtime)`.
The `prev` dict of lines 685-692 is a full outer join of the live and
reference stores under `coalesce(reference.items.outcome, 'new')`, so the
value attached to an item id is exactly `refOutcome`. -/
def reorderKey (d : List (String × Nat)) (ref : Store) (it : Item) : Nat × Int :=
  (rankGet d (refOutcome ref it.nodeid), -it.mtime)

/-- Lexicographic comparison of two sort keys, as Python compares key
tuples. -/
def itemLE (d : List (String × Nat)) (ref : Store) (a b : Item) : Bool :=
  (reorderKey d ref a).1 < (reorderKey d ref b).1 ||
    ((reorderKey d ref a).1 = (reorderKey d ref b).1 &&
      (reorderKey d ref a).2 ≤ (reorderKey d ref b).2)

/-- `items.sort(key=...)` (lines 693-696): Python `list.sort` is a stable
sort by the key tuple, embedded as a stable merge sort under `itemLE`. -/
def reorderItems (d : List (String × Nat)) (ref : Store) (items : List Item) : List Item :=
  items.mergeSort (itemLE d ref)

/-! ### Lemmas about the trie -/

theorem Trie.node_children (t : Trie) : Trie.node t.children = t := by
  cases t
  rfl

theorem Trie.childAt_empty (s : String) : Trie.empty.childAt s = none := rfl

theorem childLookup_childUpdate (cs : List (String × Trie)) (s : String) (c : Trie)
    (s2 : String) :
    childLookup (childUpdate cs s c) s2 =
      if s2 = s then some c else childLookup cs s2 := by
  induction cs with
  | nil =>
      by_cases h : s2 = s
      · subst h
        simp [childUpdate, childLookup]
      · simp [childUpdate, childLookup, h, if_neg (Ne.symm h)]
  | cons kv rest ih =>
      obtain ⟨k, v⟩ := kv
      by_cases hk : k = s
      · subst hk
        by_cases h : s2 = k
        · subst h
          simp [childUpdate, childLookup]
        · simp [childUpdate, childLookup, h, if_neg (Ne.symm h)]
      · by_cases h : s2 = k
        · subst h
          have hns : ¬ s2 = s := fun hh => hk (hh ▸ rfl)
          simp [childUpdate, childLookup, hk, hns]
        · simp [childUpdate, childLookup, hk, h, if_neg (Ne.symm h), ih]

theorem childAt_childUpdate (cs : List (String × Trie)) (s : String) (c : Trie)
    (s2 : String) :
    (Trie.node (childUpdate cs s c)).childAt s2 =
      if s2 = s then some c else (Trie.node cs).childAt s2 := by
  simp only [Trie.childAt, Trie.children]
  exact childLookup_childUpdate cs s c s2

theorem Trie.containsSegs_nil (t : Trie) : t.containsSegs [] = true := rfl

theorem Trie.containsSegs_cons (t : Trie) (s : String) (rest : List String) :
    t.containsSegs (s :: rest) =
      match t.childAt s with
      | some c => c.containsSegs rest
      | none => false := by
  cases h : t.childAt s with
  | some c => simp [Trie.containsSegs, Trie.walk, h]
  | none => simp [Trie.containsSegs, Trie.walk, h]

theorem Trie.containsSegs_empty (q : List String) :
    Trie.empty.containsSegs q = q.isEmpty := by
  cases q with
  | nil => rfl
  | cons s rest => simp [Trie.containsSegs_cons, Trie.childAt_empty]

theorem containsSegs_insertSegs (id : List String) : ∀ (t : Trie) (q : List String),
    (t.insertSegs id).containsSegs q = (t.containsSegs q || q.isPrefixOf id) := by
  induction id with
  | nil =>
      intro t q
      cases q with
      | nil => simp [Trie.insertSegs, Trie.containsSegs_nil, List.isPrefixOf]
      | cons s rest => simp [Trie.insertSegs, List.isPrefixOf]
  | cons s srest ih =>
      intro t q
      cases q with
      | nil => simp [Trie.containsSegs_nil]
      | cons s2 q2 =>
          rw [Trie.insertSegs, Trie.containsSegs_cons, Trie.containsSegs_cons,
            childAt_childUpdate, Trie.node_children]
          by_cases h : s2 = s
          · subst h
            rw [if_pos rfl]
            cases hc : t.childAt s2 with
            | some c =>
                simp only [Option.getD, ih c q2, List.isPrefixOf]
                simp
            | none =>
                simp only [Option.getD, ih Trie.empty q2, Trie.containsSegs_empty,
                  List.isPrefixOf]
                cases q2 <;> simp [List.isPrefixOf]
          · rw [if_neg h]
            have hbeq : (s2 == s) = false := by
              simpa using h
            simp [List.isPrefixOf, hbeq]

theorem containsSegs_foldl_insert (ids : List (List String)) :
    ∀ (t : Trie) (q : List String),
    ((ids.foldl Trie.insertSegs t).containsSegs q) =
      (t.containsSegs q || ids.any (fun id => q.isPrefixOf id)) := by
  induction ids with
  | nil => intro t q; simp
  | cons id rest ih =>
      intro t q
      simp only [List.foldl_cons, List.any_cons]
      rw [ih, containsSegs_insertSegs]
      cases t.containsSegs q <;> cases q.isPrefixOf id <;> simp

theorem containsId_build (nodeids : List String) (q : String) :
    IdTrie.containsId (IdTrie.build nodeids) q =
      ((idToSegs q).isEmpty
        || nodeids.any (fun nid => (idToSegs q).isPrefixOf (idToSegs nid))) := by
  unfold IdTrie.containsId IdTrie.build
  rw [show (nodeids.foldl (fun t nid => t.insertSegs (idToSegs nid)) Trie.empty)
        = ((nodeids.map idToSegs).foldl Trie.insertSegs Trie.empty) by
      rw [List.foldl_map]]
  rw [containsSegs_foldl_insert, Trie.containsSegs_empty]
  congr 1
  induction nodeids with
  | nil => rfl
  | cons nid rest ih => simp only [List.map_cons, List.any_cons, ih]

theorem refId_mem (ref : Store) (cats : List String) (n : String)
    (hnew : "new" ∉ cats) (hsel : cats.contains (refOutcome ref n) = true) :
    n ∈ refIdsFor ref cats := by
  unfold refOutcome at hsel
  cases hfind : ref.findRow n with
  | none =>
      rw [hfind] at hsel
      simp [List.contains] at hsel
      exact absurd hsel hnew
  | some r =>
      rw [hfind] at hsel
      have hr : r ∈ ref := List.mem_of_find?_eq_some hfind
      have hn : r.nodeid = n := by
        simpa using List.find?_some hfind
      unfold refIdsFor
      exact hn ▸ List.mem_map_of_mem Row.nodeid (List.mem_filter.mpr ⟨hr, hsel⟩)

theorem containsId_of_ancestor (nodeids : List String) (q : String) (nid : String)
    (hm : nid ∈ nodeids) (hp : (idToSegs q).isPrefixOf (idToSegs nid) = true) :
    IdTrie.containsId (IdTrie.build nodeids) q = true := by
  rw [containsId_build]
  have hany : nodeids.any (fun x => (idToSegs q).isPrefixOf (idToSegs x)) = true :=
    List.any_eq_true.mpr ⟨nid, hm, hp⟩
  simp [hany]

theorem leaf_survives (trie : Trie) (files : List FileNode) :
    ∀ (found : Bool) (f : FileNode) (l : LeafNode),
    f ∈ files → l ∈ f.leaves →
    IdTrie.containsId trie f.path = true →
    IdTrie.containsId trie l.nodeid = true →
    l ∈ collectFiles trie found files := by
  induction files with
  | nil =>
      intro found f l hf
      simp at hf
  | cons g rest ih =>
      intro found f l hf hl hpath hnode
      simp only [collectFiles]
      rcases List.mem_cons.mp hf with hEq | hmem
      · subst hEq
        apply List.mem_append_left
        have hany : f.leaves.any (fun m => IdTrie.containsId trie m.nodeid) = true :=
          List.any_eq_true.mpr ⟨l, hl, hnode⟩
        have hkeep : keepLeaf trie l = true := by
          simp [keepLeaf, hnode]
        cases found <;>
          simp [collectFile, hpath, hany, List.mem_filter, hl, hkeep]
      · exact List.mem_append_right _ (ih _ f l hmem hl hpath hnode)

/-- C2: with the Collection Skipper active over a reference store and a
requested category set not containing `new`, no node whose reference
outcome is in the requested set is ever removed: every leaf that plain
rerun selection would keep (its carried-forward reference outcome is in
the category set) survives the skipping pass, whatever the traversal state
of the `found_failure` flag, provided each file path is an ancestor of the
ids of its own leaves (as pytest node ids are formed). -/
theorem c2_skipper_superset (ref : Store) (cats : List String)
    (files : List FileNode) (found0 : Bool) (f : FileNode) (l : LeafNode)
    (hnew : "new" ∉ cats)
    (hpaths : ∀ g ∈ files, ∀ m ∈ g.leaves,
      (idToSegs g.path).isPrefixOf (idToSegs m.nodeid) = true)
    (hf : f ∈ files) (hl : l ∈ f.leaves)
    (hsel : cats.contains (refOutcome ref l.nodeid) = true) :
    l ∈ collectFiles (skipTrie ref cats) found0 files := by
  have hid : l.nodeid ∈ refIdsFor ref cats := refId_mem ref cats l.nodeid hnew hsel
  have hrefl : (idToSegs l.nodeid).isPrefixOf (idToSegs l.nodeid) = true :=
    List.isPrefixOf_iff_prefix.mpr (List.prefix_refl _)
  have hnode : IdTrie.containsId (skipTrie ref cats) l.nodeid = true :=
    containsId_of_ancestor _ _ _ hid hrefl
  have hpath : IdTrie.containsId (skipTrie ref cats) f.path = true :=
    containsId_of_ancestor _ _ _ hid (hpaths f hf l hl)
  exact leaf_survives _ files found0 f l hf hl hpath hnode

theorem c2_skipper_superset_witness :
    ("new" ∉ (["failed"] : List String)) ∧
    (∀ g ∈ [FileNode.mk "f.py" [LeafNode.mk "f.py::a" false false],
            FileNode.mk "g.py" [LeafNode.mk "g.py::c" false false]],
      ∀ m ∈ g.leaves, (idToSegs g.path).isPrefixOf (idToSegs m.nodeid) = true) ∧
    (FileNode.mk "f.py" [LeafNode.mk "f.py::a" false false] ∈
      [FileNode.mk "f.py" [LeafNode.mk "f.py::a" false false],
       FileNode.mk "g.py" [LeafNode.mk "g.py::c" false false]]) ∧
    (LeafNode.mk "f.py::a" false false ∈ [LeafNode.mk "f.py::a" false false]) ∧
    (["failed"].contains
      (refOutcome [{ nodeid := "f.py::a", outcome := "failed" }] "f.py::a") = true) ∧
    LeafNode.mk "f.py::a" false false ∈
      collectFiles
        (skipTrie [{ nodeid := "f.py::a", outcome := "failed" }] ["failed"]) false
        [FileNode.mk "f.py" [LeafNode.mk "f.py::a" false false],
         FileNode.mk "g.py" [LeafNode.mk "g.py::c" false false]] :=
  ⟨by decide, by decide, by decide, by decide, by decide,
    c2_skipper_superset
      [{ nodeid := "f.py::a", outcome := "failed" }] ["failed"]
      [FileNode.mk "f.py" [LeafNode.mk "f.py::a" false false],
       FileNode.mk "g.py" [LeafNode.mk "g.py::c" false false]] false
      (FileNode.mk "f.py" [LeafNode.mk "f.py::a" false false])
      (LeafNode.mk "f.py::a" false false)
      (by decide) (by decide) (by decide) (by decide) (by decide)⟩

/-- C6 (amended): the id trie membership test answers true exactly when the
query decomposition is an ancestor (prefix, equality included) of the
decomposition of some stored id, OR when the query decomposition is empty;
the trie built from the empty id set is falsy. -/
theorem c6_trie_membership (nodeids : List String) (q : String) :
    IdTrie.containsId (IdTrie.build nodeids) q =
      ((idToSegs q).isEmpty
        || nodeids.any (fun nid => (idToSegs q).isPrefixOf (idToSegs nid)))
    ∧ IdTrie.toBool (IdTrie.build []) = false :=
  ⟨containsId_build nodeids q, by decide⟩

/-- C6 counterexample: the empty string (equally, the root path, whose
relative form decomposes to no segment) is reported contained by the trie
built from no ids at all, although its decomposition is a prefix of no
stored id. -/
theorem c6_counterexample :
    IdTrie.containsId (IdTrie.build []) "" = true ∧
    ¬ ∃ nid, nid ∈ ([] : List String) ∧
      (idToSegs "").isPrefixOf (idToSegs nid) = true :=
  ⟨by decide, by simp⟩

/-- C10: a query whose segment decomposition is empty (the empty string,
or the trie root path itself, which relativises to `.` and decomposes to
no segment) is contained in every trie, the one built from the empty id
set included: the walk consumes no segment and stops at the root dict. -/
theorem c10_empty_decomposition (nodeids : List String) (q : String)
    (h : idToSegs q = []) :
    IdTrie.containsId (IdTrie.build nodeids) q = true := by
  unfold IdTrie.containsId
  rw [h]
  exact Trie.containsSegs_nil _

theorem c10_empty_decomposition_witness :
    idToSegs "." = [] ∧ IdTrie.containsId (IdTrie.build []) "." = true :=
  ⟨by decide, c10_empty_decomposition [] "." (by decide)⟩

theorem phaseBlob_writePhase (r : Row) (phase : String) (blob : String)
    (h : phase = "setup" ∨ phase = "call" ∨ phase = "teardown") :
    (r.writePhase phase blob).phaseBlob phase = some blob := by
  rcases h with h | h | h <;> subst h <;> simp [Row.writePhase, Row.phaseBlob]

theorem outcome_writePhase (r : Row) (phase : String) (blob : String) :
    (r.writePhase phase blob).outcome = r.outcome := by
  unfold Row.writePhase
  split
  · rfl
  · split
    · rfl
    · split <;> rfl

theorem nodeid_writePhase (r : Row) (phase : String) (blob : String) :
    (r.writePhase phase blob).nodeid = r.nodeid := by
  unfold Row.writePhase
  split
  · rfl
  · split
    · rfl
    · split <;> rfl

/-- C1: for a row of the live store whose nodeid a phase report (`setup`,
`call` or `teardown`) addresses, `pytest_runtest_logreport` always stores
the phase blob in that phase column of the row; it rewrites the top-level
outcome to the normalized phase outcome exactly when the stored outcome is
`pending` or `passed`, leaving any other stored outcome unchanged; and
`pytest_warning_recorded` for a `runtest` warning with a non-empty nodeid
sets the outcome of every row of that nodeid to `warnings` whatever its
current value. -/
theorem c1_phase_recording (store : Store) (rep : TestReport) (i : Nat) (r : Row)
    (hwhen : rep.phase = "setup" ∨ rep.phase = "call" ∨ rep.phase = "teardown")
    (hr : store[i]? = some r) (hid : r.nodeid = rep.nodeid) :
    (∃ r2, (runtestLogreport store rep)[i]? = some r2 ∧
      r2.phaseBlob rep.phase = some rep.blob ∧
      ((r.outcome = "pending" ∨ r.outcome = "passed") →
        r2.outcome = normalizeOutcome rep) ∧
      (r.outcome ≠ "pending" → r.outcome ≠ "passed" → r2.outcome = r.outcome)) ∧
    (∀ (nid : String), nid ≠ "" → ∀ (j : Nat) (s : Row), store[j]? = some s →
      s.nodeid = nid →
      ∃ s2, (warningRecorded store "runtest" nid)[j]? = some s2 ∧
        s2.outcome = "warnings") := by
  constructor
  · unfold runtestLogreport
    rw [if_pos hwhen]
    simp only [List.getElem?_map, hr, Option.map_some']
    have hnid1 : (if r.nodeid = rep.nodeid ∧ (r.outcome = "pending" ∨ r.outcome = "passed")
        then { r with outcome := normalizeOutcome rep } else r).nodeid = rep.nodeid := by
      split <;> simpa using hid
    rw [if_pos hnid1]
    refine ⟨_, rfl, ?_, ?_, ?_⟩
    · exact phaseBlob_writePhase _ _ _ hwhen
    · intro hpo
      rw [outcome_writePhase]
      rw [if_pos ⟨hid, hpo⟩]
    · intro h1 h2
      rw [outcome_writePhase]
      rw [if_neg (fun hc => by rcases hc.2 with h | h; exact h1 h; exact h2 h)]
  · intro nid hnid j s hs hsid
    unfold warningRecorded
    rw [if_neg (by simp [hnid])]
    simp only [List.getElem?_map, hs, Option.map_some']
    exact ⟨_, rfl, by rw [if_pos hsid]⟩

theorem c1_phase_recording_witness :
    (("call" : String) = "setup" ∨ ("call" : String) = "call"
      ∨ ("call" : String) = "teardown") ∧
    ([{ nodeid := "a", outcome := "pending" }] : Store)[0]? =
      some { nodeid := "a", outcome := "pending" } ∧
    ({ nodeid := "a", outcome := "pending" } : Row).nodeid = "a" ∧
    ((∃ r2, (runtestLogreport [{ nodeid := "a", outcome := "pending" }]
        { nodeid := "a", phase := "call", outcome := "failed",
          wasxfail := false, blob := "B" })[0]? = some r2 ∧
      r2.phaseBlob "call" = some "B" ∧
      ((({ nodeid := "a", outcome := "pending" } : Row).outcome = "pending" ∨
        ({ nodeid := "a", outcome := "pending" } : Row).outcome = "passed") →
        r2.outcome = normalizeOutcome
          { nodeid := "a", phase := "call", outcome := "failed",
            wasxfail := false, blob := "B" }) ∧
      (({ nodeid := "a", outcome := "pending" } : Row).outcome ≠ "pending" →
        ({ nodeid := "a", outcome := "pending" } : Row).outcome ≠ "passed" →
        r2.outcome = ({ nodeid := "a", outcome := "pending" } : Row).outcome)) ∧
    (∀ (nid : String), nid ≠ "" → ∀ (j : Nat) (s : Row),
      ([{ nodeid := "a", outcome := "pending" }] : Store)[j]? = some s →
      s.nodeid = nid →
      ∃ s2, (warningRecorded [{ nodeid := "a", outcome := "pending" }]
        "runtest" nid)[j]? = some s2 ∧ s2.outcome = "warnings")) :=
  ⟨by decide, by decide, by decide,
    c1_phase_recording [{ nodeid := "a", outcome := "pending" }]
      { nodeid := "a", phase := "call", outcome := "failed",
        wasxfail := false, blob := "B" } 0
      { nodeid := "a", outcome := "pending" }
      (by decide) (by decide) (by decide)⟩

/-- C4: the session-end back-fill rewrites a live row still `pending` with
the outcome of its reference counterpart when that outcome is not
`passed`; a pending row whose counterpart passed, a pending row with no
counterpart, and every non-pending row are left unchanged. -/
theorem c4_backfill (live : Store) (ref : Store) (i : Nat) (r : Row)
    (hr : live[i]? = some r) :
    ∃ r2, (rerunSessionfinish live ref)[i]? = some r2 ∧
      (r.outcome = "pending" → ∀ rr, ref.findRow r.nodeid = some rr →
        rr.outcome ≠ "passed" → r2 = { r with outcome := rr.outcome }) ∧
      (r.outcome = "pending" → ∀ rr, ref.findRow r.nodeid = some rr →
        rr.outcome = "passed" → r2 = r) ∧
      (r.outcome = "pending" → ref.findRow r.nodeid = none → r2 = r) ∧
      (r.outcome ≠ "pending" → r2 = r) := by
  unfold rerunSessionfinish
  simp only [List.getElem?_map, hr, Option.map_some']
  refine ⟨_, rfl, ?_, ?_, ?_, ?_⟩
  · intro hp rr hf hne
    simp [hp, hf, hne]
  · intro hp rr hf heq
    simp [hp, hf, heq]
  · intro hp hf
    simp [hp, hf]
  · intro hp
    simp [hp]

theorem c4_backfill_witness :
    (([{ nodeid := "a", outcome := "pending" }] : Store)[0]? =
      some { nodeid := "a", outcome := "pending" }) ∧
    (∃ r2, (rerunSessionfinish [{ nodeid := "a", outcome := "pending" }]
        [{ nodeid := "a", outcome := "failed" }])[0]? = some r2 ∧
      (({ nodeid := "a", outcome := "pending" } : Row).outcome = "pending" →
        ∀ rr, Store.findRow [{ nodeid := "a", outcome := "failed" }]
            (({ nodeid := "a", outcome := "pending" } : Row).nodeid) = some rr →
        rr.outcome ≠ "passed" →
        r2 = { ({ nodeid := "a", outcome := "pending" } : Row) with
                outcome := rr.outcome }) ∧
      (({ nodeid := "a", outcome := "pending" } : Row).outcome = "pending" →
        ∀ rr, Store.findRow [{ nodeid := "a", outcome := "failed" }]
            (({ nodeid := "a", outcome := "pending" } : Row).nodeid) = some rr →
        rr.outcome = "passed" → r2 = { nodeid := "a", outcome := "pending" }) ∧
      (({ nodeid := "a", outcome := "pending" } : Row).outcome = "pending" →
        Store.findRow [{ nodeid := "a", outcome := "failed" }]
            (({ nodeid := "a", outcome := "pending" } : Row).nodeid) = none →
        r2 = { nodeid := "a", outcome := "pending" }) ∧
      (({ nodeid := "a", outcome := "pending" } : Row).outcome ≠ "pending" →
        r2 = { nodeid := "a", outcome := "pending" })) :=
  ⟨by decide,
    c4_backfill [{ nodeid := "a", outcome := "pending" }]
      [{ nodeid := "a", outcome := "failed" }] 0
      { nodeid := "a", outcome := "pending" } (by decide)⟩

theorem lookupPrev_prevAssoc (merged : Store) (ref : Store) (n : String) :
    lookupPrev (prevAssoc merged ref) n =
      (merged.findRow n).map (fun _ => refOutcome ref n) := by
  unfold lookupPrev prevAssoc Store.findRow
  rw [List.find?_map]
  simp only [Function.comp_def]
  cases h : List.find? (fun r => decide (r.nodeid = n)) merged with
  | none => rfl
  | some r =>
      have hn : r.nodeid = n := by simpa using List.find?_some h
      simp [hn]

theorem getPrev_refOutcome (merged : Store) (ref : Store) (n : String)
    (h : (lookupPrev (prevAssoc merged ref) n).isSome = true) :
    (lookupPrev (prevAssoc merged ref) n).getD "new" = refOutcome ref n := by
  rw [lookupPrev_prevAssoc] at h ⊢
  cases hf : merged.findRow n with
  | none => rw [hf] at h; simp at h
  | some r => rfl

/-- C5 counterexample: with the fallback flag false and an empty kept set,
the selector does not behave as if the category set were absent: the item
list is emptied, the deselection notification carries both items, and the
carried-forward outcome `skipped` is written over the second row. -/
theorem c5_counterexample :
    rerunModifyitems (some ["failed"]) false
        [{ nodeid := "b", outcome := "pending" },
         { nodeid := "c", outcome := "pending" }]
        [{ nodeid := "c", outcome := "skipped" }]
        [{ nodeid := "b" }, { nodeid := "c" }] =
      some ⟨[{ nodeid := "b", outcome := "pending" },
             { nodeid := "c", outcome := "skipped" }],
            [], [{ nodeid := "b" }, { nodeid := "c" }]⟩ ∧
    ([] : List Item) ≠ [({ nodeid := "b" } : Item), { nodeid := "c" }] :=
  ⟨by decide, by decide⟩

/-- C5 (amended, fallback flag true): if rerun filtering keeps no candidate
and `all_if_none` is true, the selector behaves exactly as if no category
set were given: the merged store is left as the merge produced it, every
collected item stays selected, and no deselection notification fires. -/
theorem c5_empty_fallback (cats : List String) (live : Store) (ref : Store)
    (items : List Item) (hne : cats ≠ [])
    (hall : ∀ it ∈ items,
      ((mergeReference live ref).findRow it.nodeid).isSome = true)
    (hnone : ∀ it ∈ items, cats.contains (refOutcome ref it.nodeid) = false) :
    rerunModifyitems (some cats) true live ref items
        = rerunModifyitems none true live ref items ∧
      rerunModifyitems none true live ref items
        = some ⟨mergeReference live ref, items, []⟩ := by
  refine ⟨?_, rfl⟩
  simp only [rerunModifyitems]
  rw [if_neg hne]
  have hguard : items.all (fun it =>
      (lookupPrev (prevAssoc (mergeReference live ref) ref) it.nodeid).isSome) = true := by
    refine List.all_eq_true.mpr (fun it hit => ?_)
    rw [lookupPrev_prevAssoc]
    simpa using hall it hit
  rw [if_pos hguard]
  have hkept : items.filter (fun it => cats.contains
      ((lookupPrev (prevAssoc (mergeReference live ref) ref) it.nodeid).getD "new"))
      = [] := by
    refine List.filter_eq_nil_iff.mpr (fun it hit => ?_)
    rw [getPrev_refOutcome _ _ _ (List.all_eq_true.mp hguard it hit),
      hnone it hit]
    simp
  rw [hkept]
  rw [if_neg (by simp)]

theorem c5_empty_fallback_witness :
    ((["failed"] : List String) ≠ []) ∧
    (∀ it ∈ [({ nodeid := "b" } : Item)],
      ((mergeReference [{ nodeid := "b", outcome := "pending" }] []).findRow
        it.nodeid).isSome = true) ∧
    (∀ it ∈ [({ nodeid := "b" } : Item)],
      (["failed"] : List String).contains (refOutcome [] it.nodeid) = false) ∧
    (rerunModifyitems (some ["failed"]) true
        [{ nodeid := "b", outcome := "pending" }] [] [{ nodeid := "b" }]
      = rerunModifyitems none true
        [{ nodeid := "b", outcome := "pending" }] [] [{ nodeid := "b" }] ∧
     rerunModifyitems none true
        [{ nodeid := "b", outcome := "pending" }] [] [{ nodeid := "b" }]
      = some ⟨mergeReference [{ nodeid := "b", outcome := "pending" }] [],
              [{ nodeid := "b" }], []⟩) :=
  ⟨by decide, by decide, by decide,
    c5_empty_fallback ["failed"] [{ nodeid := "b", outcome := "pending" }] []
      [{ nodeid := "b" }] (by decide) (by decide) (by decide)⟩

/-- C7 counterexample: inserting a collected node id that already has a row
is not a no-op: the statement has no conflict clause, so the unique index
on `nodeid` is violated and the insert raises instead of succeeding. -/
theorem c7_counterexample :
    collectionInsertPending [{ nodeid := "a", outcome := "pending" }] ["a"]
      = .error "UNIQUE constraint failed: items.nodeid" ∧
    (collectionInsertPending [{ nodeid := "a", outcome := "pending" }] ["a"]).toOption
      ≠ some [{ nodeid := "a", outcome := "pending" }] :=
  ⟨rfl, by decide⟩

/-- C7 (amended): the collection-complete bulk insert creates one `pending`
row per collected id when the ids are distinct and none of them has a row
yet; an id that already has a row makes the insert fail with a uniqueness
violation rather than being ignored. -/
theorem c7_insert_pending (store : Store) (ids : List String)
    (hfresh : ∀ id ∈ ids, store.findRow id = none) (hnd : ids.Nodup) :
    collectionInsertPending store ids =
      .ok (store ++ ids.map (fun id => { nodeid := id, outcome := "pending" })) := by
  induction ids generalizing store with
  | nil => simp [collectionInsertPending]
  | cons id rest ih =>
      have h1 : store.findRow id = none := hfresh id (by simp)
      rw [collectionInsertPending]
      rw [if_neg (by simp [h1])]
      have hfresh2 : ∀ id2 ∈ rest,
          Store.findRow
            (store ++ [({ nodeid := id, outcome := "pending" } : Row)]) id2 = none := by
        intro id2 hid2
        have hne : id ≠ id2 := by
          intro he
          exact (List.nodup_cons.mp hnd).1 (he ▸ hid2)
        unfold Store.findRow at hfresh ⊢
        rw [List.find?_append, hfresh id2 (by simp [hid2])]
        rw [List.find?_cons_of_neg _ (by simp [hne])]
        rfl
      rw [ih _ hfresh2 (List.nodup_cons.mp hnd).2]
      simp

theorem c7_insert_pending_witness :
    (∀ id ∈ ["a", "b"], Store.findRow [] id = none) ∧
    (["a", "b"] : List String).Nodup ∧
    collectionInsertPending [] ["a", "b"] =
      .ok ([] ++ ["a", "b"].map (fun id => { nodeid := id, outcome := "pending" })) :=
  ⟨by decide, by decide, c7_insert_pending [] ["a", "b"] (by decide) (by decide)⟩

theorem deleteFiles_take (k : Nat) : ∀ (l : List String),
    deleteFiles l (l.take k) = some (l.drop k) := by
  induction k with
  | zero => intro l; simp [deleteFiles]
  | succ k ih =>
      intro l
      cases l with
      | nil => simp [deleteFiles]
      | cons a t =>
          rw [List.take_succ_cons, List.drop_succ_cons, deleteFiles]
          have hu : unlink true (a :: t) a = some t := by
            simp [unlink]
          rw [hu]
          exact ih t

/-- C8 counterexample: with a configured retention limit of zero the
deletion slice `sessionfiles[:-0]` is `sessionfiles[:0]`, which is empty,
so nothing at all is deleted: of one session file, one remains, not
`min 0 1 = 0` as the claim requires. -/
theorem c8_counterexample :
    sessionFinish 0 ["session-x"] = some ⟨5, ["session-x"]⟩ ∧
    (["session-x"] : List String).length ≠ min 0 1 := by
  constructor
  · simp [sessionFinish, pySliceUpToNeg, deleteFiles]
  · decide

/-- C8 (amended, retention limit at least one): a normal session finish
stamps the terminal version 5 first (head of the effect trace), then
deletes exactly the files before the `limit` most recent in lexicographic
name order, so `min limit total` files remain, and every deletion uses the
tolerant unlink, which succeeds even on a file already missing. -/
theorem c8_retention (limit : Int) (files : List String) (hl : 1 ≤ limit) :
    sessionFinish limit files =
      some ⟨5, (files.mergeSort (fun a b => a ≤ b)).drop
                (files.length - limit.toNat)⟩ ∧
    (sessionFinishTrace limit files).head? = some (FinishEvent.stamp 5) ∧
    (∀ fs f, (unlink true fs f).isSome = true) ∧
    (∀ res, sessionFinish limit files = some res →
      res.remaining.length = min limit.toNat files.length) := by
  have hpos : limit > 0 := hl
  have hslice : pySliceUpToNeg (files.mergeSort (fun a b => a ≤ b)) limit =
      (files.mergeSort (fun a b => a ≤ b)).take (files.length - limit.toNat) := by
    unfold pySliceUpToNeg
    rw [if_pos hpos, List.length_mergeSort]
  have hfin : sessionFinish limit files =
      some ⟨5, (files.mergeSort (fun a b => a ≤ b)).drop
                (files.length - limit.toNat)⟩ := by
    simp only [sessionFinish]
    rw [hslice, deleteFiles_take]
    rfl
  refine ⟨hfin, rfl, ?_, ?_⟩
  · intro fs f
    unfold unlink
    by_cases h : f ∈ fs
    · simp [h]
    · simp [h]
  · intro res hres
    rw [hfin] at hres
    injection hres with hres
    rw [← hres]
    simp only [List.length_drop, List.length_mergeSort]
    omega

theorem c8_retention_witness :
    (1 : Int) ≤ 2 ∧
    (sessionFinish 2 ["session-a", "session-b", "session-c"] =
      some ⟨5, (["session-a", "session-b", "session-c"].mergeSort
                  (fun a b => a ≤ b)).drop
                (["session-a", "session-b", "session-c"].length - (2 : Int).toNat)⟩ ∧
    (sessionFinishTrace 2 ["session-a", "session-b", "session-c"]).head? =
      some (FinishEvent.stamp 5) ∧
    (∀ fs f, (unlink true fs f).isSome = true) ∧
    (∀ res, sessionFinish 2 ["session-a", "session-b", "session-c"] = some res →
      res.remaining.length =
        min (2 : Int).toNat ["session-a", "session-b", "session-c"].length)) :=
  ⟨by decide, c8_retention 2 ["session-a", "session-b", "session-c"] (by decide)⟩

theorem mergeReference_nil (live : Store) : mergeReference live [] = live := rfl

theorem mergeReference_cons (live : Store) (r : Row) (rest : Store) :
    mergeReference live (r :: rest) =
      mergeReference
        (if (live.findRow r.nodeid).isSome then live else live ++ [r]) rest := rfl

theorem mem_mergeReference_left (ref : Store) : ∀ (live : Store) (r : Row),
    r ∈ live → r ∈ mergeReference live ref := by
  induction ref with
  | nil => intro live r h; exact h
  | cons x rest ih =>
      intro live r h
      rw [mergeReference_cons]
      apply ih
      split
      · exact h
      · exact List.mem_append_left _ h

theorem mergeReference_eq_append (ref : Store) : ∀ (live : Store),
    ∃ extra, mergeReference live ref = live ++ extra := by
  induction ref with
  | nil => intro live; exact ⟨[], by simp [mergeReference_nil]⟩
  | cons x rest ih =>
      intro live
      rw [mergeReference_cons]
      by_cases h : (live.findRow x.nodeid).isSome = true
      · rw [if_pos h]
        exact ih live
      · rw [if_neg h]
        obtain ⟨extra, he⟩ := ih (live ++ [x])
        exact ⟨[x] ++ extra, by rw [he, List.append_assoc]⟩

theorem mergeReference_covers (ref : Store) : ∀ (live : Store) (rr : Row),
    rr ∈ ref → ∃ r2 ∈ mergeReference live ref, r2.nodeid = rr.nodeid := by
  induction ref with
  | nil => intro live rr h; simp at h
  | cons x rest ih =>
      intro live rr h
      rw [mergeReference_cons]
      rcases List.mem_cons.mp h with hEq | hmem
      · subst hEq
        by_cases hf : (live.findRow rr.nodeid).isSome = true
        · rw [if_pos hf]
          obtain ⟨r2, hr2⟩ := Option.isSome_iff_exists.mp hf
          exact ⟨r2, mem_mergeReference_left rest _ r2 (List.mem_of_find?_eq_some hr2),
            by simpa using List.find?_some hr2⟩
        · rw [if_neg hf]
          exact ⟨rr, mem_mergeReference_left rest _ rr
            (List.mem_append_right _ (by simp)), rfl⟩
      · exact ih _ rr hmem

theorem mergeReference_verbatim (ref : Store) : ∀ (live : Store) (rr : Row),
    rr ∈ ref → live.findRow rr.nodeid = none → (ref.map Row.nodeid).Nodup →
    rr ∈ mergeReference live ref := by
  induction ref with
  | nil => intro live rr h; simp at h
  | cons x rest ih =>
      intro live rr h hf hnd
      rw [mergeReference_cons]
      rcases List.mem_cons.mp h with hEq | hmem
      · subst hEq
        rw [if_neg (by simp [hf])]
        exact mem_mergeReference_left rest _ rr (List.mem_append_right _ (by simp))
      · rw [List.map_cons, List.nodup_cons] at hnd
        have hx : x.nodeid ≠ rr.nodeid := by
          intro he
          exact hnd.1 (he ▸ List.mem_map_of_mem Row.nodeid hmem)
        have hnd2 : (rest.map Row.nodeid).Nodup := hnd.2
        by_cases hcase : (live.findRow x.nodeid).isSome = true
        · rw [if_pos hcase]
          exact ih live rr hmem hf hnd2
        · rw [if_neg hcase]
          apply ih _ rr hmem _ hnd2
          unfold Store.findRow at hf ⊢
          rw [List.find?_append, hf]
          rw [List.find?_cons_of_neg _ (by simp [hx]), List.find?_nil]
          rfl

theorem findRow_updateOutcome (s : Store) (n : String) (o : String) (m : String) :
    Store.findRow (updateOutcome s n o) m =
      (s.findRow m).map
        (fun r => if r.nodeid = n then { r with outcome := o } else r) := by
  unfold updateOutcome Store.findRow
  rw [List.find?_map]
  have hpred : ((fun r => decide (r.nodeid = m)) ∘
      (fun r => if r.nodeid = n then { r with outcome := o } else r))
      = fun (r : Row) => decide (r.nodeid = m) := by
    funext r
    by_cases h : r.nodeid = n <;> simp [Function.comp, h]
  rw [hpred]

theorem findRow_foldlUpdates (ups : List (String × String)) :
    ∀ (s : Store) (m : String),
    Store.findRow (ups.foldl (fun st p => updateOutcome st p.2 p.1) s) m =
      (s.findRow m).map (fun r => ups.foldl
        (fun row p =>
          if row.nodeid = p.2 then { row with outcome := p.1 } else row) r) := by
  induction ups with
  | nil =>
      intro s m
      cases h : Store.findRow s m <;> simp [h]
  | cons p rest ih =>
      intro s m
      simp only [List.foldl_cons]
      rw [ih, findRow_updateOutcome]
      cases h : Store.findRow s m <;> simp [h]

theorem rowFold_outcome (ref : Store) (n : String) :
    ∀ (ups : List (String × String)) (r : Row),
    (∀ p ∈ ups, p.1 = refOutcome ref p.2) → r.nodeid = n →
    ((ups.foldl (fun row p =>
        if row.nodeid = p.2 then { row with outcome := p.1 } else row) r).outcome
      = if ups.any (fun p => p.2 = n) then refOutcome ref n else r.outcome) ∧
    (ups.foldl (fun row p =>
        if row.nodeid = p.2 then { row with outcome := p.1 } else row) r).nodeid = n := by
  intro ups
  induction ups with
  | nil =>
      intro r hall hn
      simpa using hn
  | cons p rest ih =>
      intro r hall hn
      simp only [List.foldl_cons, List.any_cons]
      by_cases hp : p.2 = n
      · have hcond : r.nodeid = p.2 := by rw [hn, hp]
        rw [if_pos hcond]
        have hval : p.1 = refOutcome ref n := by
          rw [hall p (by simp), hp]
        obtain ⟨ho, hnid⟩ := ih { r with outcome := p.1 }
          (fun q hq => hall q (by simp [hq])) hn
        refine ⟨?_, hnid⟩
        rw [ho]
        by_cases hrest : rest.any (fun q => q.2 = n) = true
        · simp [hrest, hp]
        · simp only [Bool.not_eq_true] at hrest
          simp [hrest, hp, hval]
      · have hcond : ¬ r.nodeid = p.2 := by rw [hn]; exact fun he => hp he.symm
        rw [if_neg hcond]
        obtain ⟨ho, hnid⟩ := ih r (fun q hq => hall q (by simp [hq])) hn
        refine ⟨?_, hnid⟩
        rw [ho]
        have hd : (decide (p.2 = n)) = false := decide_eq_false hp
        simp only [hd, Bool.false_or]

theorem mem_foldlUpdates (ups : List (String × String)) :
    ∀ (s : Store) (r : Row), r ∈ s →
    ∃ r2 ∈ ups.foldl (fun st p => updateOutcome st p.2 p.1) s,
      r2.nodeid = r.nodeid := by
  induction ups with
  | nil => exact fun s r h => ⟨r, h, rfl⟩
  | cons p rest ih =>
      intro s r h
      simp only [List.foldl_cons]
      have h2 : (if r.nodeid = p.2 then { r with outcome := p.1 } else r)
          ∈ updateOutcome s p.2 p.1 := List.mem_map_of_mem _ h
      obtain ⟨r2, hr2, hnid⟩ := ih _ _ h2
      refine ⟨r2, hr2, ?_⟩
      rw [hnid]
      split <;> rfl

theorem rerunModifyitems_spec (rerun : Option (List String)) (allIfNone : Bool)
    (live : Store) (ref : Store) (items : List Item) (res : RerunResult)
    (hres : rerunModifyitems rerun allIfNone live ref items = some res) :
    ∃ ups : List (String × String),
      (∀ p ∈ ups, p.1 = refOutcome ref p.2) ∧
      res.store = ups.foldl (fun st p => updateOutcome st p.2 p.1)
        (mergeReference live ref) ∧
      ∀ it ∈ res.deselected, it ∈ items ∧
        ((mergeReference live ref).findRow it.nodeid).isSome = true ∧
        (refOutcome ref it.nodeid ≠ "new" →
          (refOutcome ref it.nodeid, it.nodeid) ∈ ups) := by
  cases rerun with
  | none =>
      simp only [rerunModifyitems] at hres
      injection hres with h
      subst h
      refine ⟨[], by simp, rfl, ?_⟩
      intro it hit
      simp at hit
  | some cats =>
      simp only [rerunModifyitems] at hres
      split at hres
      · injection hres with h
        subst h
        refine ⟨[], by simp, rfl, ?_⟩
        intro it hit
        simp at hit
      · split at hres
        case isFalse => cases hres
        case isTrue hguard =>
          split at hres
          case isFalse =>
            injection hres with h
            subst h
            refine ⟨[], by simp, rfl, ?_⟩
            intro it hit
            simp at hit
          case isTrue hbranch =>
            injection hres with h
            subst h
            refine ⟨_, ?_, rfl, ?_⟩
            · intro p hp
              simp only [List.mem_filterMap] at hp
              obtain ⟨it, hit, hf⟩ := hp
              have hit' : it ∈ items := List.mem_of_mem_filter hit
              have hsome := List.all_eq_true.mp hguard it hit'
              split at hf
              · injection hf with hf
                rw [← hf]
                exact (getPrev_refOutcome _ _ _ hsome).symm ▸ rfl
              · cases hf
            · intro it hit
              have hit' : it ∈ items := List.mem_of_mem_filter hit
              have hsome := List.all_eq_true.mp hguard it hit'
              refine ⟨hit', ?_, ?_⟩
              · rw [lookupPrev_prevAssoc] at hsome
                simpa using hsome
              · intro hne
                refine List.mem_filterMap.mpr ⟨it, hit, ?_⟩
                have hg := getPrev_refOutcome (mergeReference live ref) ref
                  it.nodeid hsome
                rw [hg, if_pos hne]

/-- C3: after the pre-filter merge, every node id of the reference store
has a live row; the merge only ever appends (existing live rows are
untouched); an id with no prior live row gets its reference row appended
verbatim; and every deselected item whose carried-forward outcome is not
`new` reads that reference outcome from the resulting store — so a node
recorded `failed` in the reference still reads `failed` even when not
collected this session. -/
theorem c3_reference_carry (rerun : Option (List String)) (allIfNone : Bool)
    (live : Store) (ref : Store) (items : List Item) (res : RerunResult)
    (hres : rerunModifyitems rerun allIfNone live ref items = some res)
    (hnd : (ref.map Row.nodeid).Nodup) :
    (∃ extra, mergeReference live ref = live ++ extra) ∧
    (∀ rr ∈ ref, live.findRow rr.nodeid = none → rr ∈ mergeReference live ref) ∧
    (∀ rr ∈ ref, ∃ r2 ∈ res.store, r2.nodeid = rr.nodeid) ∧
    (∀ it ∈ res.deselected, refOutcome ref it.nodeid ≠ "new" →
      ∃ r2, Store.findRow res.store it.nodeid = some r2 ∧
        r2.outcome = refOutcome ref it.nodeid) := by
  obtain ⟨ups, hall, hstore, hdesel⟩ :=
    rerunModifyitems_spec rerun allIfNone live ref items res hres
  refine ⟨mergeReference_eq_append ref live,
    fun rr h hf => mergeReference_verbatim ref live rr h hf hnd, ?_, ?_⟩
  · intro rr hrr
    obtain ⟨r2, hr2, hnid⟩ := mergeReference_covers ref live rr hrr
    rw [hstore]
    obtain ⟨r3, hr3, hnid3⟩ := mem_foldlUpdates ups _ r2 hr2
    exact ⟨r3, hr3, hnid3.trans hnid⟩
  · intro it hit hne
    obtain ⟨hitems, hsome, hpair⟩ := hdesel it hit
    obtain ⟨r, hr⟩ := Option.isSome_iff_exists.mp hsome
    rw [hstore, findRow_foldlUpdates, hr]
    have hrn : r.nodeid = it.nodeid := by
      simpa using List.find?_some hr
    obtain ⟨ho, hnid⟩ := rowFold_outcome ref it.nodeid ups r hall hrn
    refine ⟨_, rfl, ?_⟩
    rw [ho]
    rw [if_pos (List.any_eq_true.mpr ⟨(refOutcome ref it.nodeid, it.nodeid),
      hpair hne, by simp⟩)]

theorem c3_reference_carry_witness :
    (rerunModifyitems (some ["failed"]) false
        [{ nodeid := "b", outcome := "pending" }]
        [{ nodeid := "a", outcome := "failed" }]
        [{ nodeid := "b" }] =
      some ⟨[{ nodeid := "b", outcome := "pending" },
             { nodeid := "a", outcome := "failed" }],
            [], [{ nodeid := "b" }]⟩) ∧
    (([{ nodeid := "a", outcome := "failed" }] : Store).map Row.nodeid).Nodup ∧
    ((∃ extra, mergeReference [{ nodeid := "b", outcome := "pending" }]
        [{ nodeid := "a", outcome := "failed" }] =
        [{ nodeid := "b", outcome := "pending" }] ++ extra) ∧
    (∀ rr ∈ ([{ nodeid := "a", outcome := "failed" }] : Store),
      Store.findRow [{ nodeid := "b", outcome := "pending" }] rr.nodeid = none →
      rr ∈ mergeReference [{ nodeid := "b", outcome := "pending" }]
        [{ nodeid := "a", outcome := "failed" }]) ∧
    (∀ rr ∈ ([{ nodeid := "a", outcome := "failed" }] : Store),
      ∃ r2 ∈ (RerunResult.mk
          [{ nodeid := "b", outcome := "pending" },
           { nodeid := "a", outcome := "failed" }] [] [{ nodeid := "b" }]).store,
        r2.nodeid = rr.nodeid) ∧
    (∀ it ∈ (RerunResult.mk
          [{ nodeid := "b", outcome := "pending" },
           { nodeid := "a", outcome := "failed" }] [] [{ nodeid := "b" }]).deselected,
      refOutcome [{ nodeid := "a", outcome := "failed" }] it.nodeid ≠ "new" →
      ∃ r2, Store.findRow (RerunResult.mk
          [{ nodeid := "b", outcome := "pending" },
           { nodeid := "a", outcome := "failed" }] [] [{ nodeid := "b" }]).store
          it.nodeid = some r2 ∧
        r2.outcome = refOutcome [{ nodeid := "a", outcome := "failed" }] it.nodeid)) :=
  ⟨by decide, by decide,
    c3_reference_carry (some ["failed"]) false
      [{ nodeid := "b", outcome := "pending" }]
      [{ nodeid := "a", outcome := "failed" }]
      [{ nodeid := "b" }]
      (RerunResult.mk
        [{ nodeid := "b", outcome := "pending" },
         { nodeid := "a", outcome := "failed" }] [] [{ nodeid := "b" }])
      (by decide) (by decide)⟩

theorem find?_rankInsert_self (d : List (String × Nat)) (k : String) (v : Nat) :
    (rankInsert d k v).find? (fun p => p.1 = k) = some (k, v) := by
  induction d with
  | nil =>
      rw [rankInsert, List.find?_cons_of_pos _ (by simp)]
  | cons p rest ih =>
      obtain ⟨k0, v0⟩ := p
      by_cases h : k0 = k
      · rw [rankInsert, if_pos h, List.find?_cons_of_pos _ (by simp)]
      · rw [rankInsert, if_neg h, List.find?_cons_of_neg _ (by simp [h]), ih]

theorem find?_rankInsert_ne (d : List (String × Nat)) (k : String) (v : Nat)
    (c : String) (hck : c ≠ k) :
    (rankInsert d k v).find? (fun p => p.1 = c) = d.find? (fun p => p.1 = c) := by
  induction d with
  | nil =>
      rw [rankInsert, List.find?_cons_of_neg _ (by simp [Ne.symm hck])]
  | cons p rest ih =>
      obtain ⟨k0, v0⟩ := p
      by_cases h : k0 = k
      · subst h
        rw [rankInsert, if_pos rfl, List.find?_cons_of_neg _ (by simp [Ne.symm hck]),
          List.find?_cons_of_neg _ (by simp [Ne.symm hck])]
      · by_cases hc : k0 = c
        · subst hc
          rw [rankInsert, if_neg h, List.find?_cons_of_pos _ (by simp),
            List.find?_cons_of_pos _ (by simp)]
        · rw [rankInsert, if_neg h, List.find?_cons_of_neg _ (by simp [hc]),
            List.find?_cons_of_neg _ (by simp [hc]), ih]

theorem find?_buildRankAux_not_mem (order : List String) :
    ∀ (d : List (String × Nat)) (i : Nat) (c : String), c ∉ order →
    (buildRankAux d i order).find? (fun p => p.1 = c) =
      d.find? (fun p => p.1 = c) := by
  induction order with
  | nil => intro d i c _; rfl
  | cons o rest ih =>
      intro d i c h
      rw [buildRankAux]
      have hco : c ≠ o := fun he => h (by simp [he])
      rw [ih _ _ _ (fun hm => h (by simp [hm]))]
      exact find?_rankInsert_ne d o i c hco

theorem find?_buildRankAux_mem (order : List String) :
    ∀ (d : List (String × Nat)) (i : Nat) (c : String), order.Nodup →
    c ∈ order → d.find? (fun p => p.1 = c) = none →
    ∃ j, j < order.length ∧
      (buildRankAux d i order).find? (fun p => p.1 = c) = some (c, i + j) := by
  induction order with
  | nil => intro d i c _ hm; simp at hm
  | cons o rest ih =>
      intro d i c hnd hm hnone
      rw [buildRankAux]
      by_cases h : c = o
      · subst h
        have hnr : c ∉ rest := (List.nodup_cons.mp hnd).1
        refine ⟨0, by simp, ?_⟩
        rw [find?_buildRankAux_not_mem rest _ _ _ hnr, find?_rankInsert_self]
        rfl
      · have hmr : c ∈ rest := by
          rcases List.mem_cons.mp hm with he | hr
          · exact absurd he h
          · exact hr
        have hnone2 : (rankInsert d o i).find? (fun p => p.1 = c) = none := by
          rw [find?_rankInsert_ne d o i c h, hnone]
        obtain ⟨j, hj, hfind⟩ :=
          ih (rankInsert d o i) (i + 1) c (List.nodup_cons.mp hnd).2 hmr hnone2
        have harith : (i + 1) + j = i + (j + 1) := by omega
        exact ⟨j + 1, by simpa using Nat.succ_lt_succ hj, by rw [hfind, harith]⟩

theorem rankGet_unlisted (order : List String) (c : String) (h : c ∉ order) :
    rankGet (buildRank order) c = 99 := by
  unfold rankGet buildRank
  rw [find?_buildRankAux_not_mem order [] 0 c h]
  rfl

theorem rankGet_listed (order : List String) (c : String) (hnd : order.Nodup)
    (hm : c ∈ order) :
    rankGet (buildRank order) c < order.length := by
  unfold rankGet buildRank
  obtain ⟨j, hj, hfind⟩ := find?_buildRankAux_mem order [] 0 c hnd hm rfl
  rw [hfind]
  simpa using hj

theorem itemLE_trans (d : List (String × Nat)) (ref : Store) (a b c : Item)
    (h1 : itemLE d ref a b) (h2 : itemLE d ref b c) : itemLE d ref a c := by
  unfold itemLE at *
  simp only [Bool.or_eq_true, Bool.and_eq_true, decide_eq_true_eq] at *
  omega

theorem itemLE_total (d : List (String × Nat)) (ref : Store) (a b : Item) :
    itemLE d ref a b || itemLE d ref b a := by
  unfold itemLE
  simp only [Bool.or_eq_true, Bool.and_eq_true, decide_eq_true_eq]
  omega

theorem itemLE_elim (d : List (String × Nat)) (ref : Store) (a b : Item)
    (h : itemLE d ref a b = true) :
    rankGet d (refOutcome ref a.nodeid) < rankGet d (refOutcome ref b.nodeid) ∨
      (rankGet d (refOutcome ref a.nodeid) = rankGet d (refOutcome ref b.nodeid) ∧
        b.mtime ≤ a.mtime) := by
  unfold itemLE reorderKey at h
  simp only [Bool.or_eq_true, Bool.and_eq_true, decide_eq_true_eq] at h
  rcases h with h | ⟨he, hm⟩
  · exact Or.inl h
  · exact Or.inr ⟨he, by omega⟩

theorem itemLE_of_key_eq (d : List (String × Nat)) (ref : Store) (a b : Item)
    (h : reorderKey d ref a = reorderKey d ref b) : itemLE d ref a b = true := by
  unfold itemLE
  rw [h]
  simp

/-- C9: the reorder pass is a permutation (membership never changes); its
output is sorted primarily by the rank the user-ordered category list
assigns to each candidate's reference outcome (`new` when absent from the
reference), every unlisted category ranking strictly after every listed
one, ties broken by descending modification time; and candidates equal on
rank and modification time keep their original relative order (the sort is
stable). -/
theorem c9_reorder (order : List String) (ref : Store) (items : List Item)
    (hnd : order.Nodup) (hlen : order.length ≤ 99) :
    (reorderItems (buildRank order) ref items).Perm items ∧
    (reorderItems (buildRank order) ref items).Pairwise (fun a b =>
      rankGet (buildRank order) (refOutcome ref a.nodeid) <
          rankGet (buildRank order) (refOutcome ref b.nodeid) ∨
        (rankGet (buildRank order) (refOutcome ref a.nodeid) =
            rankGet (buildRank order) (refOutcome ref b.nodeid) ∧
          b.mtime ≤ a.mtime)) ∧
    (∀ c ∈ order, ∀ c2, c2 ∉ order →
      rankGet (buildRank order) c < rankGet (buildRank order) c2) ∧
    (∀ a b : Item,
      reorderKey (buildRank order) ref a = reorderKey (buildRank order) ref b →
      [a, b].Sublist items →
      [a, b].Sublist (reorderItems (buildRank order) ref items)) := by
  refine ⟨List.mergeSort_perm items _, ?_, ?_, ?_⟩
  · have hs := List.sorted_mergeSort
      (fun a b c => itemLE_trans (buildRank order) ref a b c)
      (fun a b => itemLE_total (buildRank order) ref a b) items
    exact hs.imp (fun h => itemLE_elim _ _ _ _ h)
  · intro c hc c2 hc2
    have h1 := rankGet_listed order c hnd hc
    have h2 := rankGet_unlisted order c2 hc2
    omega
  · intro a b hk hsub
    exact List.pair_sublist_mergeSort
      (fun a b c => itemLE_trans (buildRank order) ref a b c)
      (fun a b => itemLE_total (buildRank order) ref a b)
      (itemLE_of_key_eq _ _ _ _ hk) hsub

theorem c9_reorder_witness :
    (["failed", "error"] : List String).Nodup ∧
    (["failed", "error"] : List String).length ≤ 99 ∧
    ((reorderItems (buildRank ["failed", "error"]) []
        [⟨"a", 1⟩, ⟨"b", 2⟩]).Perm [⟨"a", 1⟩, ⟨"b", 2⟩] ∧
    (reorderItems (buildRank ["failed", "error"]) []
        [⟨"a", 1⟩, ⟨"b", 2⟩]).Pairwise (fun a b =>
      rankGet (buildRank ["failed", "error"]) (refOutcome [] a.nodeid) <
          rankGet (buildRank ["failed", "error"]) (refOutcome [] b.nodeid) ∨
        (rankGet (buildRank ["failed", "error"]) (refOutcome [] a.nodeid) =
            rankGet (buildRank ["failed", "error"]) (refOutcome [] b.nodeid) ∧
          b.mtime ≤ a.mtime)) ∧
    (∀ c ∈ (["failed", "error"] : List String), ∀ c2, c2 ∉ (["failed", "error"] : List String) →
      rankGet (buildRank ["failed", "error"]) c <
        rankGet (buildRank ["failed", "error"]) c2) ∧
    (∀ a b : Item,
      reorderKey (buildRank ["failed", "error"]) [] a =
        reorderKey (buildRank ["failed", "error"]) [] b →
      [a, b].Sublist [⟨"a", 1⟩, ⟨"b", 2⟩] →
      [a, b].Sublist (reorderItems (buildRank ["failed", "error"]) []
        [⟨"a", 1⟩, ⟨"b", 2⟩]))) :=
  ⟨by decide, by decide,
    c9_reorder ["failed", "error"] [] [⟨"a", 1⟩, ⟨"b", 2⟩] (by decide) (by decide)⟩
